import Mathlib

/- Verification development for the myshell program (src/main.rs).

   Shallow embedding: Rust strings are lists of characters; the alias
   HashMap is an association list with unique keys (insert overwrites the
   value of an existing key); the side effects of one dispatch step are
   reified in an `Effect` value (process exit, external program execution
   with its argument list, the out-of-bounds index panic of the alias
   branch, or none), and the printed output is collected as a list of
   `Msg` values, `info` for println! lines and `err` for eprintln! lines.
   The file system is modelled by an environment giving each path an
   optional content (none = open fails), a per-path creation success flag
   and a per-line write success oracle. -/

abbrev Str : Type := List Char

def str (s : String) : Str := s.toList

/-- The single-quote character, used in printed messages. -/
def quoteC : Char := Char.ofNat 39

/-- One token as produced by split_whitespace on the input line:
    nonempty and free of whitespace characters. -/
def IsToken (s : Str) : Prop := s ≠ [] ∧ ∀ c ∈ s, c.isWhitespace = false

inductive Msg where
  | info (s : Str)
  | err (s : Str)
deriving DecidableEq

inductive Effect where
  | exit
  | exec (prog : Str) (args : List Str)
  | panicIndex
  | nop
deriving DecidableEq

def Effect.isExec : Effect → Bool
  | .exec _ _ => true
  | _ => false

abbrev AliasTable : Type := List (Str × Str)

/-- HashMap::get - the value at a key (keys are unique). -/
def lookupAlias : AliasTable → Str → Option Str
  | [], _ => none
  | (k, v) :: rest, a => if k = a then some v else lookupAlias rest a

/-- HashMap::contains_key. -/
def containsKey : AliasTable → Str → Bool
  | [], _ => false
  | (k, _) :: rest, a => k = a || containsKey rest a

/-- HashMap::insert - overwrite the value at an existing key, else add the
    binding. -/
def insertAlias : AliasTable → Str → Str → AliasTable
  | [], a, c => [(a, c)]
  | (k, v) :: rest, a, c =>
    if k = a then (k, c) :: rest else (k, v) :: insertAlias rest a c

/-- HashMap::remove. -/
def eraseKey : AliasTable → Str → AliasTable
  | [], _ => []
  | (k, v) :: rest, a => if k = a then rest else (k, v) :: eraseKey rest a

/-- Worker for split_whitespace: `cur` is the reversed current word. -/
def splitWhitespaceGo : Str → Str → List Str
  | cur, [] => if cur = [] then [] else [cur.reverse]
  | cur, c :: rest =>
    if c.isWhitespace then
      if cur = [] then splitWhitespaceGo [] rest
      else cur.reverse :: splitWhitespaceGo [] rest
    else splitWhitespaceGo (c :: cur) rest

/-- str::split_whitespace, collected into a list of words. -/
def splitWhitespace (s : Str) : List Str := splitWhitespaceGo [] s

/-- line.splitn(2, ' ') restricted to the two-part case: `some` of the part
    before the first space and the verbatim remainder; `none` when the line
    contains no space (the one-part case, which the loader skips). -/
def splitFirstSpace : Str → Option (Str × Str)
  | [] => none
  | c :: rest =>
    if c = ' ' then some ([], rest)
    else
      match splitFirstSpace rest with
      | none => none
      | some (a, b) => some (c :: a, b)

/-- Split a string at every newline character; always nonempty. -/
def splitOnNl : Str → List Str
  | [] => [[]]
  | c :: rest =>
    if c = '\n' then [] :: splitOnNl rest
    else
      match splitOnNl rest with
      | [] => [[c]]
      | l :: ls => (c :: l) :: ls

/-- Remove one trailing carriage return, as BufRead::lines does on a
    CRLF-terminated line. -/
def stripCR (l : Str) : Str := if l.getLast? = some '\r' then l.dropLast else l

/-- BufRead::lines of a file content: newline-separated segments, an empty
    final segment dropped, a trailing carriage return removed from each. -/
def linesOf (s : Str) : List Str :=
  let parts := splitOnNl s
  (if parts.getLast? = some [] then parts.dropLast else parts).map stripCR

/-- The line loop of read_aliases_from_file: each line is split on its
    first space; two-part lines are inserted; after each insert the loop
    stops as soon as the table size has reached max_aliases; one-part
    lines are skipped. -/
def readLinesGo : List Str → AliasTable → Nat → AliasTable
  | [], aliases, _ => aliases
  | line :: rest, aliases, max_aliases =>
    match splitFirstSpace line with
    | some (a, c) =>
      let aliases' := insertAlias aliases a c
      if max_aliases ≤ aliases'.length then aliases'
      else readLinesGo rest aliases' max_aliases
    | none => readLinesGo rest aliases max_aliases

/-- read_aliases_from_file: File::open may fail (contents = none); on
    success the lines of the content are fed through the loading loop. -/
def read_aliases_from_file (contents : Option Str) (aliases : AliasTable)
    (max_aliases : Nat) : Except Str AliasTable :=
  match contents with
  | none => Except.error (str "No such file or directory")
  | some s => Except.ok (readLinesGo (linesOf s) aliases max_aliases)

structure SaveOut where
  result : Except Str Unit
  written : Str
  msgs : List Msg

/-- The write loop of save_aliases_to_file: writeln! of one line per entry
    in table order; the first failed write (per the oracle, indexed by
    line number) prints an error and breaks, writing nothing further. -/
def writeLinesGo : AliasTable → Nat → (Nat → Bool) → Str × List Msg
  | [], _, _ => ([], [])
  | (a, c) :: rest, i, writeOk =>
    if writeOk i then
      let out := writeLinesGo rest (i + 1) writeOk
      (a ++ [' '] ++ c ++ ['\n'] ++ out.1, out.2)
    else ([], [Msg.err (str "Error writing to file")])

/-- save_aliases_to_file: File::create may fail, which is the only error
    result; otherwise the entries are written and the function returns ok
    even when a write failed midway. -/
def save_aliases_to_file (createOk : Bool) (writeOk : Nat → Bool)
    (aliases : AliasTable) : SaveOut :=
  if createOk then
    let out := writeLinesGo aliases 0 writeOk
    ⟨Except.ok (), out.1, out.2⟩
  else
    ⟨Except.error (str "Error creating file"), [], [Msg.err (str "Error creating file")]⟩

/-- The file content produced by a save in which every write succeeds. -/
def savedFile (aliases : AliasTable) : Str :=
  (save_aliases_to_file true (fun _ => true) aliases).written

/-- One alias file line as written by save_aliases_to_file, without its
    trailing newline: the name, one space, the command line. -/
def entryLine (p : Str × Str) : Str := p.1 ++ ' ' :: p.2

/-- Vec::join(" ") as used by set_shell_name. -/
def joinSpace : List Str → Str
  | [] => []
  | [x] => x
  | x :: xs => x ++ [' '] ++ joinSpace xs

/-- set_shell_name: the tokens after the selector joined by single spaces
    become the new shell name (the old name is discarded). -/
def set_shell_name (inputs : List Str) (_shellname : Str) : Str × List Msg :=
  let new_name := joinSpace (inputs.drop 1)
  (new_name, [Msg.info (str "Shell name set to: " ++ new_name)])

/-- set_terminator: token 1, when present, becomes the new terminator;
    otherwise the terminator is kept and a message says so. -/
def set_terminator (inputs : List Str) (terminator : Str) : Str × List Msg :=
  match inputs.get? 1 with
  | some new_terminator =>
    (new_terminator, [Msg.info (str "Terminator set to: " ++ new_terminator)])
  | none =>
    (terminator,
      [Msg.info (str "No terminator specified. Using the default terminator: " ++ terminator)])

/-- The rendering of the alias enumeration, one line per entry. -/
def aliasLines (aliases : AliasTable) : List Msg :=
  aliases.map (fun p => Msg.info (p.1 ++ str " - " ++ p.2))

/-- set_new_name: arity 1 enumerates, arity 2 deletes (reporting a missing
    key without error), arity 3 inserts or overwrites, anything else is
    invalid usage. -/
def set_new_name (inputs : List Str) (aliases : AliasTable) : AliasTable × List Msg :=
  match inputs with
  | [_] => (aliases, Msg.info (str "Aliases:") :: aliasLines aliases)
  | [_, alias_to_delete] =>
    if containsKey aliases alias_to_delete then
      (eraseKey aliases alias_to_delete,
        [Msg.info (str "Alias " ++ [quoteC] ++ alias_to_delete ++ [quoteC] ++ str " deleted.")])
    else
      (aliases,
        [Msg.info (str "Alias " ++ [quoteC] ++ alias_to_delete ++ [quoteC] ++ str " does not exist.")])
  | [_, new_alias, old_command] =>
    (insertAlias aliases new_alias old_command,
      [Msg.info (str "Alias " ++ [quoteC] ++ new_alias ++ [quoteC] ++ str " defined for "
        ++ [quoteC] ++ old_command ++ [quoteC] ++ str ".")])
  | _ => (aliases, [Msg.info (str "Invalid usage of NEWNAME command.")])

/-- list_new_names: enumerate all aliases. -/
def list_new_names (aliases : AliasTable) : List Msg :=
  Msg.info (str "Aliases:") :: aliasLines aliases

/-- read_new_names: exactly two tokens are required; otherwise usage, no
    state change.  A file error is reported and leaves the table as the
    loader left it (open failure happens before any mutation). -/
def read_new_names (inputs : List Str) (aliases : AliasTable) (max_aliases : Nat)
    (fs : Str → Option Str) : AliasTable × List Msg :=
  match inputs with
  | [_, file_name] =>
    match read_aliases_from_file (fs file_name) aliases max_aliases with
    | Except.error e => (aliases, [Msg.err (str "Error reading aliases from file: " ++ e)])
    | Except.ok t => (t, [])
  | _ => (aliases, [Msg.info (str "Usage: READNEWNAMES <file_name>")])

/-- save_new_names: exactly two tokens are required; a save whose result
    is ok is reported as successful, an error result is reported as an
    error. -/
def save_new_names (inputs : List Str) (aliases : AliasTable)
    (createOk : Str → Bool) (writeOk : Str → Nat → Bool) : List Msg :=
  match inputs with
  | [_, file_name] =>
    let out := save_aliases_to_file (createOk file_name) (writeOk file_name) aliases
    match out.result with
    | Except.error e => out.msgs ++ [Msg.err (str "Error saving aliases to file: " ++ e)]
    | Except.ok _ => out.msgs ++ [Msg.info (str "Aliases saved to file: " ++ file_name)]
  | _ => [Msg.info (str "Usage: SAVENEWNAMES <file_name>")]

structure ShellState where
  shellname : Str
  terminator : Str
  aliases : AliasTable
deriving DecidableEq

structure Env where
  fs : Str → Option Str
  createOk : Str → Bool
  writeOk : Str → Nat → Bool

structure DispatchOut where
  state : ShellState
  action : Effect
  msgs : List Msg

/-- The fall-through arm of match_inputs: the first token is looked up in
    the alias table - a hit re-tokenizes the stored command line and
    executes its head with its tail as arguments (indexing, hence a panic,
    when the tokenization is empty), a miss executes the first token with
    the remaining input tokens as arguments. -/
def resolve_and_execute (command : Str) (inputs : List Str) (st : ShellState) : DispatchOut :=
  match lookupAlias st.aliases command with
  | some alias_command =>
    match splitWhitespace alias_command with
    | [] => ⟨st, Effect.panicIndex, []⟩
    | prog :: args => ⟨st, Effect.exec prog args, []⟩
  | none => ⟨st, Effect.exec command (inputs.drop 1), []⟩

/-- match_inputs: dispatch on token 0.  The seven selectors are tried in
    order; any other first token falls through to alias resolution and
    program execution. -/
def match_inputs (inputs : List Str) (st : ShellState) (max_aliases : Nat)
    (env : Env) : DispatchOut :=
  match inputs.head? with
  | none => ⟨st, Effect.nop, []⟩
  | some command =>
    if command = str "STOP" then ⟨st, Effect.exit, []⟩
    else if command = str "SETSHELLNAME" then
      let out := set_shell_name inputs st.shellname
      ⟨{ st with shellname := out.1 }, Effect.nop, out.2⟩
    else if command = str "SETTERMINATOR" then
      let out := set_terminator inputs st.terminator
      ⟨{ st with terminator := out.1 }, Effect.nop, out.2⟩
    else if command = str "NEWNAME" then
      let out := set_new_name inputs st.aliases
      ⟨{ st with aliases := out.1 }, Effect.nop, out.2⟩
    else if command = str "READNEWNAMES" then
      let out := read_new_names inputs st.aliases max_aliases env.fs
      ⟨{ st with aliases := out.1 }, Effect.nop, out.2⟩
    else if command = str "LISTNEWNAMES" then
      ⟨st, Effect.nop, list_new_names st.aliases⟩
    else if command = str "SAVENEWNAMES" then
      ⟨st, Effect.nop, save_new_names inputs st.aliases env.createOk env.writeOk⟩
    else resolve_and_execute command inputs st

/-- The seven built-in selector strings, in match order. -/
def SELECTORS : List Str :=
  [str "STOP", str "SETSHELLNAME", str "SETTERMINATOR", str "NEWNAME",
   str "READNEWNAMES", str "LISTNEWNAMES", str "SAVENEWNAMES"]

/-- The state set up by main before the loop. -/
def initState : ShellState := ⟨str "My Shell", str ">", []⟩

/-- A default environment: no file exists, creation and writes succeed. -/
def envDefault : Env := ⟨fun _ => none, fun _ => true, fun _ _ => true⟩

example : splitWhitespace (str "ls -l  x") = [str "ls", str "-l", str "x"] := by decide
example : splitFirstSpace (str "x ") = some (str "x", str "") := by decide
example : splitFirstSpace (str "justoneword") = none := by decide
example : linesOf (str "a b\nc d\n") = [str "a b", str "c d"] := by decide
example : readLinesGo [str "x "] [] 10 = [(str "x", [])] := by decide
example :
    (match_inputs [str "x"] ⟨str "My Shell", str ">", [(str "x", [])]⟩ 10 envDefault).action
      = Effect.panicIndex := by decide
example : savedFile [(str "a", str "b c")] = str "a b c\n" := by decide

lemma splitFirstSpace_append_cons (a c : Str) (h : ' ' ∉ a) :
    splitFirstSpace (a ++ ' ' :: c) = some (a, c) := by
  induction a with
  | nil => simp [splitFirstSpace]
  | cons x xs ih =>
    have hx : ¬ x = ' ' := fun e => h (by simp [e])
    have h' : ' ' ∉ xs := fun m => h (List.mem_cons_of_mem _ m)
    simp [splitFirstSpace, hx, ih h']

lemma splitFirstSpace_eq_none (l : Str) : splitFirstSpace l = none ↔ ' ' ∉ l := by
  induction l with
  | nil => simp [splitFirstSpace]
  | cons x xs ih =>
    by_cases hx : x = ' '
    · subst hx; simp [splitFirstSpace]
    · cases h : splitFirstSpace xs with
      | none =>
        simp [splitFirstSpace, hx, h, List.mem_cons, Ne.symm hx, ih.mp h]
      | some p =>
        have : ¬ (' ' ∉ xs) := fun hm => by rw [ih.mpr hm] at h; exact Option.noConfusion h
        simp [splitFirstSpace, hx, h, List.mem_cons, this]

lemma splitWhitespaceGo_no_ws (w : Str) (hw : ∀ c ∈ w, c.isWhitespace = false) :
    ∀ cur : Str, cur ≠ [] ∨ w ≠ [] → splitWhitespaceGo cur w = [cur.reverse ++ w] := by
  induction w with
  | nil =>
    intro cur h
    rcases h with h | h
    · simp [splitWhitespaceGo, h]
    · exact absurd rfl h
  | cons c cs ih =>
    intro cur _
    have hc : c.isWhitespace = false := hw c (by simp)
    have hcs : ∀ x ∈ cs, x.isWhitespace = false := fun x m => hw x (by simp [m])
    rw [splitWhitespaceGo, if_neg (by simp [hc]), ih hcs (c :: cur) (Or.inl (by simp))]
    simp

lemma splitWhitespace_token (w : Str) (hw : IsToken w) : splitWhitespace w = [w] := by
  have := splitWhitespaceGo_no_ws w hw.2 [] (Or.inr hw.1)
  simpa [splitWhitespace] using this

lemma containsKey_false_iff (t : AliasTable) (a : Str) :
    containsKey t a = false ↔ a ∉ t.map Prod.fst := by
  induction t with
  | nil => simp [containsKey]
  | cons p rest ih =>
    cases p with
    | mk k v => simp [containsKey, ih, not_or, eq_comm (a := k) (b := a)]

lemma insertAlias_of_not_contains (t : AliasTable) (a c : Str)
    (h : containsKey t a = false) : insertAlias t a c = t ++ [(a, c)] := by
  induction t with
  | nil => simp [insertAlias]
  | cons p rest ih =>
    cases p with
    | mk k v =>
      have hk : ¬ k = a := by
        intro e; rw [containsKey, e] at h; simp at h
      have h' : containsKey rest a = false := by
        rw [containsKey] at h; simpa [hk] using h
      simp [insertAlias, hk, ih h']

lemma insertAlias_length_le (t : AliasTable) (a c : Str) :
    (insertAlias t a c).length ≤ t.length + 1 := by
  induction t with
  | nil => simp [insertAlias]
  | cons p rest ih =>
    cases p with
    | mk k v =>
      by_cases hk : k = a
      · simp [insertAlias, hk]
      · simp only [insertAlias, if_neg hk, List.length_cons]
        omega

lemma lookupAlias_insert_self (t : AliasTable) (a c : Str) :
    lookupAlias (insertAlias t a c) a = some c := by
  induction t with
  | nil => simp [insertAlias, lookupAlias]
  | cons p rest ih =>
    cases p with
    | mk k v =>
      by_cases hk : k = a
      · simp [insertAlias, hk, lookupAlias]
      · simp [insertAlias, hk, lookupAlias, ih]

lemma joinSpace_cons_ne_nil (x : Str) (xs : List Str) (hx : x ≠ []) :
    joinSpace (x :: xs) ≠ [] := by
  cases xs with
  | nil => simpa [joinSpace] using hx
  | cons y ys => simp [joinSpace, hx]

lemma splitOnNl_append_cons (l s : Str) (h : '\n' ∉ l) :
    splitOnNl (l ++ '\n' :: s) = l :: splitOnNl s := by
  induction l with
  | nil => simp [splitOnNl]
  | cons x xs ih =>
    have hx : ¬ x = '\n' := fun e => h (by simp [e])
    have h' : '\n' ∉ xs := fun m => h (List.mem_cons_of_mem _ m)
    rw [List.cons_append, splitOnNl, if_neg hx, ih h']

lemma resolve_and_execute_state (command : Str) (inputs : List Str) (st : ShellState) :
    (resolve_and_execute command inputs st).state = st := by
  rw [resolve_and_execute]
  split
  · split
    · rfl
    · rfl
  · rfl

lemma writeLinesGo_all_ok (t : AliasTable) :
    ∀ i : Nat, writeLinesGo t i (fun _ => true)
      = ((t.map (fun p => entryLine p ++ ['\n'])).flatten, []) := by
  induction t with
  | nil => intro i; simp [writeLinesGo]
  | cons p rest ih =>
    intro i
    cases p with
    | mk a c => simp [writeLinesGo, ih (i + 1), entryLine]

lemma savedFile_eq (t : AliasTable) :
    savedFile t = (t.map (fun p => entryLine p ++ ['\n'])).flatten := by
  rw [savedFile, save_aliases_to_file, if_pos rfl, writeLinesGo_all_ok t 0]

lemma splitOnNl_flatten (ls : List Str) (h : ∀ l ∈ ls, '\n' ∉ l) :
    splitOnNl ((ls.map (fun l => l ++ ['\n'])).flatten) = ls ++ [[]] := by
  induction ls with
  | nil => simp [splitOnNl]
  | cons l rest ih =>
    have hl : '\n' ∉ l := h l (by simp)
    have h' : ∀ x ∈ rest, '\n' ∉ x := fun x m => h x (by simp [m])
    have heq : (((l :: rest).map (fun l => l ++ ['\n'])).flatten : Str)
        = l ++ '\n' :: ((rest.map (fun l => l ++ ['\n'])).flatten) := by simp
    rw [heq, splitOnNl_append_cons _ _ hl, ih h']
    simp

lemma stripCR_of_getLast (l : Str) (h : l.getLast? ≠ some '\r') : stripCR l = l := by
  simp [stripCR, h]

lemma entryLine_getLast (p : Str × Str) (h : p.2.getLast? ≠ some '\r') :
    (entryLine p).getLast? ≠ some '\r' := by
  cases hc : p.2 with
  | nil =>
    rw [entryLine, hc]
    rw [show p.1 ++ ' ' :: ([] : Str) = p.1 ++ [' '] from rfl, List.getLast?_concat]
    decide
  | cons x xs =>
    have h2 : (' ' :: p.2).getLast? = p.2.getLast? := by
      rw [hc, List.getLast?_cons_cons]
    have hsome : p.2.getLast?.isSome := by
      rw [hc]
      exact List.getLast?_isSome.mpr (by simp)
    obtain ⟨v, hv⟩ := Option.isSome_iff_exists.mp hsome
    have hvne : v ≠ '\r' := fun e => h (by rw [hv, e])
    rw [entryLine, List.getLast?_append, h2, hv]
    simp [Option.or, hvne]

lemma linesOf_savedFile (t : AliasTable)
    (hnl : ∀ p ∈ t, '\n' ∉ entryLine p)
    (hcr : ∀ p ∈ t, p.2.getLast? ≠ some '\r') :
    linesOf (savedFile t) = t.map entryLine := by
  rw [savedFile_eq, linesOf]
  have hjoin : (t.map (fun p => entryLine p ++ ['\n'])).flatten
      = ((t.map entryLine).map (fun l => l ++ ['\n'])).flatten := by
    rw [List.map_map]; rfl
  rw [hjoin, splitOnNl_flatten _ (by
    intro l hl
    rcases List.mem_map.mp hl with ⟨p, hp, rfl⟩
    exact hnl p hp)]
  rw [List.getLast?_concat, if_pos rfl, List.dropLast_concat]
  have hmap : ∀ l ∈ t.map entryLine, stripCR l = id l := by
    intro l hl
    rcases List.mem_map.mp hl with ⟨p, hp, rfl⟩
    exact stripCR_of_getLast _ (entryLine_getLast p (hcr p hp))
  rw [List.map_congr_left hmap, List.map_id]

lemma readLinesGo_load (rest : AliasTable) :
    ∀ (acc : AliasTable) (max : Nat),
      ((acc ++ rest).map Prod.fst).Nodup →
      (∀ p ∈ rest, ' ' ∉ p.1) →
      (acc ++ rest).length ≤ max →
      readLinesGo (rest.map entryLine) acc max = acc ++ rest := by
  induction rest with
  | nil => intro acc max _ _ _; simp [readLinesGo]
  | cons p rs ih =>
    intro acc max hnd hsp hlen
    cases p with
    | mk a c =>
      have hsp1 : ' ' ∉ a := hsp (a, c) (by simp)
      have hsplit : splitFirstSpace (entryLine (a, c)) = some (a, c) :=
        splitFirstSpace_append_cons a c hsp1
      have hnotmem : a ∉ acc.map Prod.fst := by
        rw [List.map_append, List.map_cons] at hnd
        have hd := (List.nodup_append.mp hnd).2.2
        intro hmem
        exact hd hmem (by simp)
      have hck : containsKey acc a = false := (containsKey_false_iff acc a).mpr hnotmem
      have hins : insertAlias acc a c = acc ++ [(a, c)] :=
        insertAlias_of_not_contains _ _ _ hck
      simp only [List.map_cons, readLinesGo, hsplit, hins]
      by_cases hle : max ≤ (acc ++ [(a, c)]).length
      · rw [if_pos hle]
        have hrs : rs = [] := by
          apply List.eq_nil_of_length_eq_zero
          simp only [List.length_append, List.length_cons, List.length_nil] at hlen hle
          omega
        subst hrs
        rfl
      · rw [if_neg hle]
        rw [List.append_cons] at hnd hlen
        have hrec := ih (acc ++ [(a, c)]) max hnd (fun q hq => hsp q (by simp [hq])) hlen
        rw [hrec, ← List.append_cons]

lemma readLinesGo_length_le (ls : List Str) :
    ∀ (t : AliasTable) (max : Nat), t.length < max →
      (readLinesGo ls t max).length ≤ max := by
  induction ls with
  | nil => intro t max h; simpa [readLinesGo] using Nat.le_of_lt h
  | cons line rest ih =>
    intro t max h
    cases hs : splitFirstSpace line with
    | none => simp only [readLinesGo, hs]; exact ih t max h
    | some p =>
      cases p with
      | mk a c =>
        have hil := insertAlias_length_le t a c
        simp only [readLinesGo, hs]
        by_cases hle : max ≤ (insertAlias t a c).length
        · rw [if_pos hle]; omega
        · rw [if_neg hle]; exact ih _ _ (Nat.lt_of_not_le hle)

lemma readLinesGo_stop (line : Str) (a c : Str) (t : AliasTable) (max : Nat)
    (rest : List Str) (hs : splitFirstSpace line = some (a, c))
    (hle : max ≤ (insertAlias t a c).length) :
    readLinesGo (line :: rest) t max = insertAlias t a c := by
  simp only [readLinesGo, hs]
  rw [if_pos hle]

lemma readLinesGo_skip (line : Str) (t : AliasTable) (max : Nat) (rest : List Str)
    (h : ' ' ∉ line) : readLinesGo (line :: rest) t max = readLinesGo rest t max := by
  simp only [readLinesGo, (splitFirstSpace_eq_none line).mpr h]

lemma readLinesGo_cont (line a c : Str) (t : AliasTable) (max : Nat)
    (rest : List Str) (hs : splitFirstSpace line = some (a, c))
    (hlt : ¬ max ≤ (insertAlias t a c).length) :
    readLinesGo (line :: rest) t max = readLinesGo rest (insertAlias t a c) max := by
  simp only [readLinesGo, hs]
  rw [if_neg hlt]

lemma not_selector (x : Str) (hx : x ∉ SELECTORS) :
    ¬ x = str "STOP" ∧ ¬ x = str "SETSHELLNAME" ∧ ¬ x = str "SETTERMINATOR"
    ∧ ¬ x = str "NEWNAME" ∧ ¬ x = str "READNEWNAMES" ∧ ¬ x = str "LISTNEWNAMES"
    ∧ ¬ x = str "SAVENEWNAMES" := by
  simp only [SELECTORS, List.mem_cons, List.not_mem_nil, or_false] at hx
  push_neg at hx
  exact hx

/-- Dispatch of a non-selector first token that hits the alias table:
    the stored command line is re-tokenized and its head executed with
    its tail, the remaining input tokens discarded and the state kept. -/
lemma dispatch_alias_hit (x v prog : Str) (args : List Str) (st : ShellState)
    (max_aliases : Nat) (env : Env) (rest : List Str)
    (hx : x ∉ SELECTORS)
    (hl : lookupAlias st.aliases x = some v)
    (hsw : splitWhitespace v = prog :: args) :
    match_inputs (x :: rest) st max_aliases env = ⟨st, Effect.exec prog args, []⟩ := by
  obtain ⟨h1, h2, h3, h4, h5, h6, h7⟩ := not_selector x hx
  simp only [match_inputs, List.head?_cons]
  rw [if_neg h1, if_neg h2, if_neg h3, if_neg h4, if_neg h5, if_neg h6, if_neg h7]
  simp only [resolve_and_execute, hl, hsw]

/-- C1: for every token sequence whose first token is one of the seven
    selectors STOP, SETSHELLNAME, SETTERMINATOR, NEWNAME, READNEWNAMES,
    LISTNEWNAMES, SAVENEWNAMES, dispatch never produces an
    external-process execution effect, whatever the remaining tokens and
    whatever the alias table (in particular when the selector string is
    also an alias key). -/
theorem C1_selector_never_executes (inputs : List Str) (st : ShellState)
    (max_aliases : Nat) (env : Env) (s : Str)
    (h0 : inputs.head? = some s) (hs : s ∈ SELECTORS) :
    (match_inputs inputs st max_aliases env).action.isExec = false := by
  cases inputs with
  | nil => simp at h0
  | cons t ts =>
    have hts : t = s := by simpa using h0
    subst hts
    simp only [SELECTORS, List.mem_cons, List.not_mem_nil, or_false] at hs
    simp only [match_inputs, List.head?_cons]
    rcases hs with h | h | h | h | h | h | h
    · subst h; rw [if_pos rfl]; rfl
    · subst h; rw [if_neg (by decide), if_pos rfl]; rfl
    · subst h; rw [if_neg (by decide), if_neg (by decide), if_pos rfl]; rfl
    · subst h
      rw [if_neg (by decide), if_neg (by decide), if_neg (by decide), if_pos rfl]; rfl
    · subst h
      rw [if_neg (by decide), if_neg (by decide), if_neg (by decide), if_neg (by decide),
        if_pos rfl]
      rfl
    · subst h
      rw [if_neg (by decide), if_neg (by decide), if_neg (by decide), if_neg (by decide),
        if_neg (by decide), if_pos rfl]
      rfl
    · subst h
      rw [if_neg (by decide), if_neg (by decide), if_neg (by decide), if_neg (by decide),
        if_neg (by decide), if_neg (by decide), if_pos rfl]
      rfl

theorem C1_selector_never_executes_witness :
    (match_inputs [str "STOP", str "ls"]
      ⟨str "My Shell", str ">", [(str "STOP", str "ls -l")]⟩ 10 envDefault).action.isExec
      = false :=
  C1_selector_never_executes _ _ _ _ (str "STOP") rfl (by decide)

/-- C2: the claim asserts graceful failure on an alias whose stored value
    tokenizes to the empty sequence; the code instead reaches the
    out-of-bounds index of the resolved command list (a panic).  The
    empty-valued binding is reachable: loading a file whose line is a
    name followed by a single trailing space inserts it. -/
theorem C2_empty_alias_panics :
    read_aliases_from_file (some (str "x \n")) [] 10 = Except.ok [(str "x", [])]
    ∧ (match_inputs [str "x"] ⟨str "My Shell", str ">", [(str "x", [])]⟩ 10
        envDefault).action = Effect.panicIndex :=
  ⟨rfl, rfl⟩

/-- C9: alias resolution is single-pass and non-recursive: when a
    non-selector first token hits the alias table, the head of the
    re-tokenized stored command line goes straight to external execution
    - whatever string it is, selector or alias name included - with no
    second dispatch and no second lookup, and the state unchanged. -/
theorem C9_resolution_single_pass (x v prog : Str) (args : List Str)
    (st : ShellState) (max_aliases : Nat) (env : Env) (rest : List Str)
    (hx : x ∉ SELECTORS)
    (hl : lookupAlias st.aliases x = some v)
    (hsw : splitWhitespace v = prog :: args) :
    match_inputs (x :: rest) st max_aliases env = ⟨st, Effect.exec prog args, []⟩ :=
  dispatch_alias_hit x v prog args st max_aliases env rest hx hl hsw

theorem C9_resolution_single_pass_witness :
    match_inputs [str "x"] ⟨str "My Shell", str ">", [(str "x", str "STOP")]⟩ 10 envDefault
      = ⟨⟨str "My Shell", str ">", [(str "x", str "STOP")]⟩,
         Effect.exec (str "STOP") [], []⟩ :=
  C9_resolution_single_pass (str "x") (str "STOP") (str "STOP") [] _ 10 envDefault []
    (by decide) rfl rfl

/-- C8: NEWNAME with exactly 2 tokens deletes the named alias when
    present; when absent it reports that the alias does not exist as an
    informational message, produces no error and no effect, and leaves
    the whole state - in particular every table entry - unchanged. -/
theorem C8_newname_delete (a : Str) (st : ShellState) (max_aliases : Nat) (env : Env) :
    (containsKey st.aliases a = true →
      match_inputs [str "NEWNAME", a] st max_aliases env =
        ⟨{ st with aliases := eraseKey st.aliases a }, Effect.nop,
         [Msg.info (str "Alias " ++ [quoteC] ++ a ++ [quoteC] ++ str " deleted.")]⟩)
    ∧ (containsKey st.aliases a = false →
      match_inputs [str "NEWNAME", a] st max_aliases env =
        ⟨st, Effect.nop,
         [Msg.info (str "Alias " ++ [quoteC] ++ a ++ [quoteC] ++ str " does not exist.")]⟩) := by
  have hredux : match_inputs [str "NEWNAME", a] st max_aliases env =
      ⟨{ st with aliases := (set_new_name [str "NEWNAME", a] st.aliases).1 }, Effect.nop,
        (set_new_name [str "NEWNAME", a] st.aliases).2⟩ := by
    simp only [match_inputs, List.head?_cons]
    rw [if_neg (by decide), if_neg (by decide), if_neg (by decide), if_pos trivial]
  constructor
  · intro h
    rw [hredux]
    simp only [set_new_name]
    rw [if_pos h]
  · intro h
    rw [hredux]
    simp only [set_new_name]
    rw [if_neg (by simp [h])]

theorem C8_newname_delete_witness :
    (match_inputs [str "NEWNAME", str "a"]
        ⟨str "My Shell", str ">", [(str "a", str "b")]⟩ 10 envDefault).state.aliases = []
    ∧ (match_inputs [str "NEWNAME", str "c"]
        ⟨str "My Shell", str ">", [(str "a", str "b")]⟩ 10 envDefault).state
        = ⟨str "My Shell", str ">", [(str "a", str "b")]⟩ := by
  constructor
  · have h := (C8_newname_delete (str "a")
      ⟨str "My Shell", str ">", [(str "a", str "b")]⟩ 10 envDefault).1 (by decide)
    rw [h]
    rfl
  · have h := (C8_newname_delete (str "c")
      ⟨str "My Shell", str ">", [(str "a", str "b")]⟩ 10 envDefault).2 (by decide)
    rw [h]

/-- C6: counterexample to the claim as stated.  After NEWNAME STOP y the
    binding STOP - y is in the table, yet dispatching the input whose
    first token is STOP does not invoke program y: the selector arm runs
    first and the effect is process exit. -/
theorem C6_alias_shadowed_by_selector :
    (match_inputs [str "NEWNAME", str "STOP", str "y"] initState 10 envDefault).state.aliases
      = [(str "STOP", str "y")]
    ∧ (match_inputs [str "STOP"]
        ((match_inputs [str "NEWNAME", str "STOP", str "y"] initState 10 envDefault).state)
        10 envDefault).action = Effect.exit :=
  ⟨rfl, rfl⟩

/-- C6 (amended): after NEWNAME x y with x not one of the seven
    selectors, dispatching any input whose first token is x executes
    program y with an empty argument list: the stored value replaces the
    input entirely and the original tokens after token 0 are discarded,
    whatever they are. -/
theorem C6_newname_then_resolve (x y : Str) (st : ShellState) (max_aliases : Nat)
    (env : Env) (rest : List Str)
    (hx : x ∉ SELECTORS) (hy : IsToken y) :
    match_inputs (x :: rest)
        ((match_inputs [str "NEWNAME", x, y] st max_aliases env).state) max_aliases env
      = ⟨(match_inputs [str "NEWNAME", x, y] st max_aliases env).state,
         Effect.exec y [], []⟩ := by
  have hst : (match_inputs [str "NEWNAME", x, y] st max_aliases env).state
      = { st with aliases := insertAlias st.aliases x y } := by
    simp only [match_inputs, List.head?_cons]
    rw [if_neg (by decide), if_neg (by decide), if_neg (by decide), if_pos trivial]
    simp only [set_new_name]
  rw [hst]
  exact dispatch_alias_hit x y y [] _ max_aliases env rest hx
    (lookupAlias_insert_self st.aliases x y) (splitWhitespace_token y hy)

theorem C6_newname_then_resolve_witness :
    match_inputs [str "x", str "ignored"]
        ((match_inputs [str "NEWNAME", str "x", str "y"] initState 10 envDefault).state)
        10 envDefault
      = ⟨(match_inputs [str "NEWNAME", str "x", str "y"] initState 10 envDefault).state,
         Effect.exec (str "y") [], []⟩ :=
  C6_newname_then_resolve (str "x") (str "y") initState 10 envDefault [str "ignored"]
    (by decide) ⟨by decide, by decide⟩

/-- C10: save_aliases_to_file returns an error result exactly when file
    creation fails; a failed line write (per the oracle) stops all
    further writing yet the function still returns ok, so the
    SAVENEWNAMES handler ends its output with the success message even
    after a partial write. -/
theorem C10_save_error_semantics :
    (∀ (writeOk : Nat → Bool) (aliases : AliasTable),
        (save_aliases_to_file false writeOk aliases).result
          = Except.error (str "Error creating file"))
    ∧ (∀ (writeOk : Nat → Bool) (aliases : AliasTable),
        (save_aliases_to_file true writeOk aliases).result = Except.ok ())
    ∧ (∀ (a c : Str) (rest : AliasTable) (i : Nat) (writeOk : Nat → Bool),
        writeOk i = false →
          writeLinesGo ((a, c) :: rest) i writeOk
            = ([], [Msg.err (str "Error writing to file")]))
    ∧ (∀ (file : Str) (aliases : AliasTable) (createOk : Str → Bool)
        (writeOk : Str → Nat → Bool), createOk file = true →
          (save_new_names [str "SAVENEWNAMES", file] aliases createOk writeOk).getLast?
            = some (Msg.info (str "Aliases saved to file: " ++ file))) := by
  refine ⟨fun writeOk aliases => ?_, fun writeOk aliases => ?_,
    fun a c rest i writeOk h => ?_, fun file aliases createOk writeOk h => ?_⟩
  · rw [save_aliases_to_file, if_neg (by simp)]
  · rw [save_aliases_to_file, if_pos rfl]
  · rw [writeLinesGo, if_neg (by simp [h])]
  · have hsave : save_aliases_to_file (createOk file) (writeOk file) aliases
        = ⟨Except.ok (), (writeLinesGo aliases 0 (writeOk file)).1,
           (writeLinesGo aliases 0 (writeOk file)).2⟩ := by
      rw [save_aliases_to_file, h, if_pos rfl]
    simp only [save_new_names, hsave]
    rw [List.getLast?_concat]

theorem C10_save_error_semantics_witness :
    (save_aliases_to_file false (fun _ => true) [(str "a", str "b")]).result
        = Except.error (str "Error creating file")
    ∧ writeLinesGo [(str "a", str "b"), (str "c", str "d")] 0 (fun _ => false)
        = ([], [Msg.err (str "Error writing to file")])
    ∧ (save_new_names [str "SAVENEWNAMES", str "f"] [(str "a", str "b")]
        (fun _ => true) (fun _ _ => false)).getLast?
        = some (Msg.info (str "Aliases saved to file: " ++ str "f")) :=
  ⟨C10_save_error_semantics.1 _ _,
   C10_save_error_semantics.2.2.1 _ _ _ _ _ rfl,
   C10_save_error_semantics.2.2.2 _ _ _ _ rfl⟩

/-- C3: counterexample to the round-trip claim over arbitrary tables.
    A key containing a space is re-split at its first space on load; a
    value containing a newline is split across two file lines; a value
    ending in a carriage return loses it to the CRLF handling of the
    line reader.  In each case the loaded table differs from the saved
    one as a mapping. -/
theorem C3_roundtrip_cex :
    (read_aliases_from_file (some (savedFile [(str "a b", str "c")])) [] 1
        = Except.ok [(str "a", str "b c")]
      ∧ lookupAlias [(str "a", str "b c")] (str "a b")
          ≠ lookupAlias [(str "a b", str "c")] (str "a b"))
    ∧ (read_aliases_from_file (some (savedFile [(str "a", str "b\nc")])) [] 1
        = Except.ok [(str "a", str "b")]
      ∧ lookupAlias [(str "a", str "b")] (str "a")
          ≠ lookupAlias [(str "a", str "b\nc")] (str "a"))
    ∧ (read_aliases_from_file (some (savedFile [(str "a", str "b\r")])) [] 1
        = Except.ok [(str "a", str "b")]
      ∧ lookupAlias [(str "a", str "b")] (str "a")
          ≠ lookupAlias [(str "a", str "b\r")] (str "a")) :=
  ⟨⟨rfl, by decide⟩, ⟨rfl, by decide⟩, ⟨rfl, by decide⟩⟩

/-- C3 (amended): for every alias table whose keys contain no space and
    no newline, whose values contain no newline and do not end in a
    carriage return (which covers every table the program itself can
    build), saving and then bulk-loading into an empty table with
    maxAliases at least the table size yields an equal mapping. -/
theorem C3_roundtrip (t : AliasTable) (max_aliases : Nat)
    (hnd : (t.map Prod.fst).Nodup)
    (hsp : ∀ p ∈ t, ' ' ∉ p.1)
    (hnl : ∀ p ∈ t, '\n' ∉ p.1 ∧ '\n' ∉ p.2)
    (hcr : ∀ p ∈ t, p.2.getLast? ≠ some '\r')
    (hmax : t.length ≤ max_aliases) :
    ∃ t', read_aliases_from_file (some (savedFile t)) [] max_aliases = Except.ok t'
      ∧ ∀ k, lookupAlias t' k = lookupAlias t k := by
  refine ⟨t, ?_, fun k => rfl⟩
  rw [read_aliases_from_file]
  have hlines : linesOf (savedFile t) = t.map entryLine := by
    apply linesOf_savedFile t _ hcr
    intro p hp hmem
    rw [entryLine] at hmem
    rcases List.mem_append.mp hmem with h1 | h2
    · exact (hnl p hp).1 h1
    · rcases List.mem_cons.mp h2 with h3 | h4
      · exact absurd h3 (by decide)
      · exact (hnl p hp).2 h4
  rw [hlines,
    readLinesGo_load t [] max_aliases (by simpa using hnd) hsp (by simpa using hmax)]
  rw [List.nil_append]

theorem C3_roundtrip_witness :
    ∃ t', read_aliases_from_file (some (savedFile [(str "al", str "ls -l")])) [] 1
        = Except.ok t'
      ∧ ∀ k, lookupAlias t' k = lookupAlias [(str "al", str "ls -l")] k :=
  C3_roundtrip [(str "al", str "ls -l")] 1 (by decide) (by decide) (by decide)
    (by decide) (by decide)

/-- C4: counterexample to the size-bound conjunct over every starting
    table: the bound is only checked after an insert, so a load into a
    table already at the bound still performs one insert and ends with
    maxAliases + 1 entries. -/
theorem C4_maxaliases_cex :
    read_aliases_from_file (some (str "c 3\n"))
        [(str "a", str "1"), (str "b", str "2")] 2
      = Except.ok [(str "a", str "1"), (str "b", str "2"), (str "c", str "3")]
    ∧ 2 < ([(str "a", str "1"), (str "b", str "2"), (str "c", str "3")]
        : AliasTable).length :=
  ⟨rfl, by decide⟩

/-- C4 (amended): bulk-load checks the table size right after each
    insert and stops as soon as it has reached maxAliases, so the
    remaining lines are never read: a valid line whose insert reaches
    the bound makes the result independent of the rest of the file.
    Loading 5 valid lines whose first two alias names differ into an
    empty table with maxAliases = 2 yields exactly the first two lines
    in file order.  The size bound holds whenever the starting table is
    strictly below the bound (a start at or above it still admits one
    insert, as the counterexample shows). -/
theorem C4_load_stops_at_max :
    (∀ l1 l2 l3 l4 l5 a1 c1 a2 c2 a3 c3 a4 c4 a5 c5 : Str,
        splitFirstSpace l1 = some (a1, c1) → splitFirstSpace l2 = some (a2, c2) →
        splitFirstSpace l3 = some (a3, c3) → splitFirstSpace l4 = some (a4, c4) →
        splitFirstSpace l5 = some (a5, c5) → a1 ≠ a2 →
        readLinesGo [l1, l2, l3, l4, l5] [] 2 = [(a1, c1), (a2, c2)])
    ∧ (∀ (line a c : Str) (t : AliasTable) (max_aliases : Nat) (rest : List Str),
        splitFirstSpace line = some (a, c) →
        max_aliases ≤ (insertAlias t a c).length →
        readLinesGo (line :: rest) t max_aliases = insertAlias t a c)
    ∧ (∀ (ls : List Str) (t : AliasTable) (max_aliases : Nat),
        t.length < max_aliases → (readLinesGo ls t max_aliases).length ≤ max_aliases) := by
  refine ⟨?_, fun line a c t m rest hs hle => readLinesGo_stop line a c t m rest hs hle,
    fun ls t m h => readLinesGo_length_le ls t m h⟩
  intro l1 l2 l3 l4 l5 a1 c1 a2 c2 a3 c3 a4 c4 a5 c5 h1 h2 h3 h4 h5 h12
  have e1 : insertAlias [] a1 c1 = [(a1, c1)] := rfl
  have e2 : insertAlias [(a1, c1)] a2 c2 = [(a1, c1), (a2, c2)] := by
    simp [insertAlias, h12]
  rw [readLinesGo_cont l1 a1 c1 [] 2 _ h1
      (by rw [e1]; simp only [List.length_cons, List.length_nil]; omega), e1,
    readLinesGo_stop l2 a2 c2 [(a1, c1)] 2 _ h2
      (by rw [e2]; simp only [List.length_cons, List.length_nil]; omega), e2]

theorem C4_load_stops_at_max_witness :
    readLinesGo [str "a 1", str "b 2", str "c 3", str "d 4", str "e 5"] [] 2
      = [(str "a", str "1"), (str "b", str "2")]
    ∧ readLinesGo [str "c 3", str "d 4"] [(str "a", str "1")] 2
      = [(str "a", str "1"), (str "c", str "3")]
    ∧ (readLinesGo [str "a 1", str "b 2", str "c 3"] [] 3).length ≤ 3 := by
  refine ⟨C4_load_stops_at_max.1 _ _ _ _ _ _ _ _ _ _ _ _ _ _ _
      rfl rfl rfl rfl rfl (by decide),
    ?_, C4_load_stops_at_max.2.2 _ _ _ (by decide)⟩
  exact (C4_load_stops_at_max.2.1 (str "c 3") (str "c") (str "3")
    [(str "a", str "1")] 2 [str "d 4"] rfl (by decide)).trans (by decide)

/-- C5: counterexample.  A line whose only space is leading (empty first
    part) is not skipped by the loader: it splits into an empty alias
    name and the remainder and creates an entry; a line with a trailing
    space likewise creates an entry with an empty command value. -/
theorem C5_empty_part_not_skipped :
    read_aliases_from_file (some (str " x\n")) [] 10 = Except.ok [([], str "x")]
    ∧ ([([], str "x")] : AliasTable) ≠ []
    ∧ read_aliases_from_file (some (str "x \n")) [] 10 = Except.ok [(str "x", [])]
    ∧ ([(str "x", [])] : AliasTable) ≠ [] :=
  ⟨rfl, by decide, rfl, by decide⟩

/-- C5 (amended): a file line is skipped by the loader exactly when it
    contains no space at all; a skipped line creates no entry, modifies
    nothing and does not terminate loading.  A line containing a space
    is always split at its first space and inserted, even when the part
    before or after that space is empty. -/
theorem C5_skip_semantics :
    (∀ line : Str, splitFirstSpace line = none ↔ ' ' ∉ line)
    ∧ (∀ (line : Str) (t : AliasTable) (max_aliases : Nat) (rest : List Str),
        ' ' ∉ line →
          readLinesGo (line :: rest) t max_aliases = readLinesGo rest t max_aliases)
    ∧ (∀ (line a c : Str) (t : AliasTable) (max_aliases : Nat) (rest : List Str),
        splitFirstSpace line = some (a, c) →
          readLinesGo (line :: rest) t max_aliases
            = if max_aliases ≤ (insertAlias t a c).length then insertAlias t a c
              else readLinesGo rest (insertAlias t a c) max_aliases) :=
  ⟨splitFirstSpace_eq_none,
   fun line t m rest h => readLinesGo_skip line t m rest h,
   fun line a c t m rest hs => by simp only [readLinesGo, hs]⟩

theorem C5_skip_semantics_witness :
    (splitFirstSpace (str "justoneword") = none ↔ ' ' ∉ str "justoneword")
    ∧ readLinesGo [str "justoneword", str "a 1"] [] 10
        = readLinesGo [str "a 1"] [] 10
    ∧ readLinesGo [str "a 1"] [] 10
        = if 10 ≤ (insertAlias [] (str "a") (str "1")).length
          then insertAlias [] (str "a") (str "1")
          else readLinesGo [] (insertAlias [] (str "a") (str "1")) 10 :=
  ⟨C5_skip_semantics.1 _,
   C5_skip_semantics.2.1 _ _ _ _ (by decide),
   C5_skip_semantics.2.2 _ _ _ _ _ _ rfl⟩

/-- C7: counterexample.  Dispatching the single token SETSHELLNAME joins
    an empty token list, so the shell name becomes the empty string even
    from the non-empty initial state. -/
theorem C7_setshellname_empties_name :
    initState.shellname ≠ []
    ∧ (match_inputs [str "SETSHELLNAME"] initState 10 envDefault).state.shellname = [] :=
  ⟨by decide, rfl⟩

/-- C7 (amended): for inputs made of nonempty tokens, dispatch keeps a
    nonempty terminator nonempty; it also keeps a nonempty shell name
    nonempty except for the one input consisting of the sole token
    SETSHELLNAME, which sets the name to the empty string. -/
theorem C7_nonempty_preservation (inputs : List Str) (st : ShellState)
    (max_aliases : Nat) (env : Env)
    (htok : ∀ t ∈ inputs, t ≠ ([] : Str))
    (hname : st.shellname ≠ []) (hterm : st.terminator ≠ []) :
    (match_inputs inputs st max_aliases env).state.terminator ≠ []
    ∧ (inputs ≠ [str "SETSHELLNAME"] →
        (match_inputs inputs st max_aliases env).state.shellname ≠ []) := by
  cases inputs with
  | nil => exact ⟨hterm, fun _ => hname⟩
  | cons t ts =>
    simp only [match_inputs, List.head?_cons]
    split_ifs with h1 h2 h3 h4 h5 h6 h7
    · exact ⟨hterm, fun _ => hname⟩
    · constructor
      · exact hterm
      · intro hne
        cases ts with
        | nil => exact absurd (by rw [h2]) hne
        | cons u us =>
          have hu : u ≠ [] := htok u (by simp)
          simpa [set_shell_name] using joinSpace_cons_ne_nil u us hu
    · constructor
      · cases ts with
        | nil => simpa [set_terminator] using hterm
        | cons u us => simpa [set_terminator] using htok u (by simp)
      · intro _; exact hname
    · exact ⟨hterm, fun _ => hname⟩
    · exact ⟨hterm, fun _ => hname⟩
    · exact ⟨hterm, fun _ => hname⟩
    · exact ⟨hterm, fun _ => hname⟩
    · rw [resolve_and_execute_state]
      exact ⟨hterm, fun _ => hname⟩

theorem C7_nonempty_preservation_witness :
    (match_inputs [str "SETTERMINATOR", str "$"] initState 10 envDefault).state.terminator
      ≠ []
    ∧ ([str "SETTERMINATOR", str "$"] ≠ [str "SETSHELLNAME"] →
        (match_inputs [str "SETTERMINATOR", str "$"] initState 10
          envDefault).state.shellname ≠ []) :=
  C7_nonempty_preservation [str "SETTERMINATOR", str "$"] initState 10 envDefault
    (by decide) (by decide) (by decide)
